import Mathlib

/-!
Shallow embedding of the text metrics engine of this repository
(`text_analyzer.py`, class `TextAnalyzer`), together with theorems about
the statistics it reports.

Conventions of the embedding:
* Python floats are modelled as exact rationals (`ℚ`); Python `int` as
  `Int`/`Nat`.
* Python dicts used as ordered multiplicity maps (`word_freq`,
  `char_count`) are association lists that preserve insertion order,
  with `upsert` modelling `d[k] = d.get(k, 0) + 1`.
* `sorted(..., key=lambda x: x[1], reverse=True)` (CPython's stable sort,
  descending on counts) is modelled by the stable insertion sort
  `sortCountDesc`.
* The source delegates word/sentence tokenization to NLTK and the
  stop-word list to NLTK data; neither is part of this repository, so
  those pieces are modelled from the specification (see the doc comments
  of `wordTokenize`, `sentTokenize`; the stop-word list is a parameter).
* `str.isalpha` is modelled by `Char.isAlpha` (the claims under study do
  not distinguish ASCII from wider Unicode letter classes).
-/

/-- Sentence-final punctuation characters used by the sentence splitter. -/
def isSentEnd (c : Char) : Bool := c = '.' || c = '!' || c = '?'

/-- Accumulator-style scanner producing maximal alphanumeric runs. -/
def wordsAux : List Char → List Char → List String
  | [], cur => if cur.isEmpty then [] else [String.mk cur.reverse]
  | c :: cs, cur =>
    if c.isAlphanum then wordsAux cs (c :: cur)
    else if cur.isEmpty then wordsAux cs []
    else String.mk cur.reverse :: wordsAux cs []

/-- Modelled from the spec: word tokenization.  The source calls NLTK's
`word_tokenize`, which is not part of this repository; per the spec the
document is lower-cased and maximal alphanumeric runs are the word
tokens, while punctuation, quotes and whitespace are boundaries. -/
def wordTokenize (t : String) : List String :=
  wordsAux (t.toList.map Char.toLower) []

/-- Accumulator-style scanner splitting after sentence-final punctuation
that is followed by whitespace or end of text. -/
def sentAux : List Char → List Char → List String
  | [], cur => if cur.all Char.isWhitespace then [] else [String.mk cur.reverse]
  | [c], cur =>
    if isSentEnd c then [String.mk (c :: cur).reverse]
    else if (c :: cur).all Char.isWhitespace then [] else [String.mk (c :: cur).reverse]
  | c :: d :: cs, cur =>
    if isSentEnd c && d.isWhitespace then
      String.mk (c :: cur).reverse :: sentAux (d :: cs) []
    else sentAux (d :: cs) (c :: cur)

/-- Modelled from the spec: sentence tokenization.  The source calls
NLTK's `sent_tokenize`, which is not part of this repository; per the
spec a sentence ends at `.`, `!` or `?` followed by whitespace or end of
text, and a trailing fragment counts as a sentence when it contains a
non-whitespace character. -/
def sentTokenize (t : String) : List String := sentAux t.toList []

/-- The vowel set of `_count_syllables` (`"aeiouy"`). -/
def vowels : List Char := ['a', 'e', 'i', 'o', 'u', 'y']

/-- The scanning loop of `_count_syllables`: counts transitions from
non-vowel to vowel, threading the `on_vowel` flag. -/
def transAux : List Char → Bool → Nat
  | [], _ => 0
  | c :: cs, onV =>
    (if vowels.contains c && !onV then 1 else 0) + transAux cs (vowels.contains c)

/-- Number of non-vowel→vowel transitions, starting with `on_vowel = False`. -/
def numTransitions (l : List Char) : Nat := transAux l false

/-- The lower-cased character sequence of a word (`word.lower()`). -/
def lowerChars (w : String) : List Char := w.toList.map Char.toLower

/-- `TextAnalyzer._count_syllables`: transitions into vowels, minus one
when the (lower-cased) word ends in `e`, and `1` when the running count
is zero.  Python ints are modelled by `Int`. -/
def countSyllables (w : String) : Int :=
  let l := lowerChars w
  let c : Int := numTransitions l
  let c2 : Int := if l.getLast? = some 'e' then c - 1 else c
  if c2 = 0 then 1 else c2

/-- `d[k] = d.get(k, 0) + 1` on an insertion-ordered association list:
bump the value when the key is present, else append `(k, 1)`. -/
def upsert {α : Type} [DecidableEq α] (m : List (α × Nat)) (k : α) : List (α × Nat) :=
  if ∃ p ∈ m, p.1 = k then m.map (fun p => if p.1 = k then (p.1, p.2 + 1) else p)
  else m ++ [(k, 1)]

/-- The dict-building loop of `_get_word_frequency`: fold `upsert` over
the token list, starting from the empty map. -/
def countMap {α : Type} [DecidableEq α] (l : List α) : List (α × Nat) :=
  l.foldl upsert []

/-- Stable descending insertion: place `x` before the first element
whose count is not larger.  Earlier elements therefore stay before
later elements of equal count. -/
def insertDesc {α : Type} (x : α × Nat) : List (α × Nat) → List (α × Nat)
  | [] => [x]
  | y :: l => if y.2 ≤ x.2 then x :: y :: l else y :: insertDesc x l

/-- `sorted(items, key=lambda x: x[1], reverse=True)`: CPython's sort is
stable; modelled by stable insertion sort on descending counts. -/
def sortCountDesc {α : Type} : List (α × Nat) → List (α × Nat)
  | [] => []
  | x :: l => insertDesc x (sortCountDesc l)

/-- Index of the first occurrence of `a` (length of the list when `a` is
absent). -/
def firstIdx {α : Type} [DecidableEq α] (a : α) : List α → Nat
  | [] => 0
  | b :: l => if a = b then 0 else firstIdx a l + 1

/-- `str.isalpha` of a word: non-empty and all letters. -/
def isAlphaStr (w : String) : Bool := !w.toList.isEmpty && w.toList.all Char.isAlpha

/-- The paragraph splitter `text.split('\n\n')`: leftmost,
non-overlapping split on a double newline. -/
def splitParas : List Char → List Char → List (List Char)
  | [], cur => [cur.reverse]
  | [c], cur => [(c :: cur).reverse]
  | c :: d :: cs, cur =>
    if c = '\n' ∧ d = '\n' then cur.reverse :: splitParas cs []
    else splitParas (d :: cs) (c :: cur)

/-- `len([p for p in text.split('\n\n') if p.strip()])`. -/
def paragraphCount (t : String) : Nat :=
  ((splitParas t.toList []).filter (fun p => p.any (fun c => !c.isWhitespace))).length

/-- Result record of `_get_basic_stats`. -/
structure BasicStats where
  character_count : Nat
  character_count_no_spaces : Nat
  word_count : Nat
  sentence_count : Nat
  paragraph_count : Nat
  average_words_per_sentence : ℚ
  average_characters_per_word : ℚ
deriving DecidableEq

/-- `TextAnalyzer._get_basic_stats`.  `text.replace(' ', '')` removes
exactly the ASCII space characters, modelled by a filter. -/
def getBasicStats (t : String) : BasicStats :=
  let words := wordTokenize t
  let sentences := sentTokenize t
  { character_count := t.length
    character_count_no_spaces := (t.toList.filter (fun c => c ≠ ' ')).length
    word_count := words.length
    sentence_count := sentences.length
    paragraph_count := paragraphCount t
    average_words_per_sentence :=
      if sentences = [] then 0 else (words.length : ℚ) / (sentences.length : ℚ)
    average_characters_per_word :=
      if words = [] then 0 else ((words.map String.length).sum : ℚ) / (words.length : ℚ) }

/-- Round half to even (Python's `round` on exact values). -/
def roundHalfEven (q : ℚ) : ℤ :=
  if q - ⌊q⌋ < 1 / 2 then ⌊q⌋
  else if 1 / 2 < q - ⌊q⌋ then ⌊q⌋ + 1
  else if ⌊q⌋ % 2 = 0 then ⌊q⌋ else ⌊q⌋ + 1

/-- Python's `round(q, d)` on exact decimal arguments. -/
def pyRound (d : Nat) (q : ℚ) : ℚ := (roundHalfEven (q * 10 ^ d) : ℚ) / 10 ^ d

/-- Result record of `_calculate_readability`. -/
structure ReadabilityScore where
  flesch_score : ℚ
  readability_level : String
  syllable_count : Int
deriving DecidableEq

/-- `TextAnalyzer._calculate_readability`: Flesch Reading-Ease from word,
sentence and syllable counts, clamped to `[0, 100]` when both token
sequences are non-empty and `0` otherwise; the reported score is rounded
to one decimal place. -/
def calculateReadability (t : String) : ReadabilityScore :=
  let sentences := sentTokenize t
  let words := wordTokenize t
  let syllables : Int := (words.map countSyllables).sum
  let flesch : ℚ :=
    if sentences ≠ [] ∧ words ≠ [] then
      max 0 (min 100 (206.835 - 1.015 * ((words.length : ℚ) / (sentences.length : ℚ))
        - 84.6 * ((syllables : ℚ) / (words.length : ℚ))))
    else 0
  { flesch_score := pyRound 1 flesch
    readability_level :=
      if flesch ≥ 90 then "非常に簡単"
      else if flesch ≥ 80 then "簡単"
      else if flesch ≥ 70 then "やや簡単"
      else if flesch ≥ 60 then "普通"
      else if flesch ≥ 50 then "やや難しい"
      else if flesch ≥ 30 then "難しい"
      else "非常に難しい"
    syllable_count := syllables }

/-- Result record of `_get_word_frequency`. -/
structure WordFrequency where
  unique_words : Nat
  most_common_words : List (String × Nat)
  total_words_analyzed : Nat
deriving DecidableEq

/-- The token filter of `_get_word_frequency`: alphabetic tokens that are
not stop words. -/
def freqFilter (stopWords : List String) (w : String) : Bool :=
  isAlphaStr w && !stopWords.contains w

/-- `TextAnalyzer._get_word_frequency`.  The stop-word list is NLTK data,
not part of this repository, hence a parameter (per the spec it is a
configuration input). -/
def getWordFrequency (stopWords : List String) (t : String) : WordFrequency :=
  let ws := (wordTokenize t).filter (freqFilter stopWords)
  let freq := countMap ws
  { unique_words := freq.length
    most_common_words := (sortCountDesc freq).take 10
    total_words_analyzed := ws.length }

/-- Python's `min` over a non-empty list (`0` is never consulted: the
source only calls it on non-empty input). -/
def pyMin : List Nat → Nat
  | [] => 0
  | x :: xs => xs.foldl min x

/-- Python's `max` over a non-empty list. -/
def pyMax : List Nat → Nat
  | [] => 0
  | x :: xs => xs.foldl max x

/-- Result record of `_analyze_sentences`. -/
structure SentenceAnalysis where
  average_sentence_length : ℚ
  shortest_sentence : Nat
  longest_sentence : Nat
  sentence_lengths : List Nat
deriving DecidableEq

/-- `TextAnalyzer._analyze_sentences`: per-sentence word counts, with
zero defaults when there are no sentences. -/
def analyzeSentences (t : String) : SentenceAnalysis :=
  let lengths := (sentTokenize t).map (fun s => (wordTokenize s).length)
  if lengths = [] then
    { average_sentence_length := 0
      shortest_sentence := 0
      longest_sentence := 0
      sentence_lengths := [] }
  else
    { average_sentence_length := (lengths.sum : ℚ) / (lengths.length : ℚ)
      shortest_sentence := pyMin lengths
      longest_sentence := pyMax lengths
      sentence_lengths := lengths }

/-- Result record of `_analyze_characters`. -/
structure CharacterAnalysis where
  total_letters : Nat
  unique_letters : Nat
  most_common_letters : List (Char × Nat)
  letter_distribution : List (Char × Nat)
deriving DecidableEq

/-- The dict-building loop of `_analyze_characters`: count lower-cased
alphabetic characters in insertion order. -/
def charCountMap (t : String) : List (Char × Nat) :=
  t.toList.foldl (fun m c => if c.isAlpha then upsert m c.toLower else m) []

/-- `TextAnalyzer._analyze_characters`. -/
def analyzeCharacters (t : String) : CharacterAnalysis :=
  let cc := charCountMap t
  { total_letters := (cc.map Prod.snd).sum
    unique_letters := cc.length
    most_common_letters := (sortCountDesc cc).take 10
    letter_distribution := cc }

/-- Result record of `_detect_language` (supplied by the external
language oracle). -/
structure LangResult where
  detected_language : String
  language_name : String
deriving DecidableEq

/-- The language-code→name table of `_detect_language`. -/
def langNames : List (String × String) :=
  [("en", "英語"), ("ja", "日本語"), ("es", "スペイン語"), ("fr", "フランス語"),
   ("de", "ドイツ語"), ("it", "イタリア語"), ("pt", "ポルトガル語"), ("ru", "ロシア語"),
   ("zh", "中国語"), ("ko", "韓国語")]

/-- `TextAnalyzer._detect_language`: the detector itself is the external
`langdetect` oracle, modelled as a function of the detector seed and the
text (`none` models a raised exception). -/
def detectLanguage (oracle : Nat → String → Option String) (seed : Nat)
    (t : String) : LangResult :=
  match oracle seed t with
  | some lang =>
    { detected_language := lang
      language_name := (langNames.lookup lang).getD ("言語コード: " ++ lang) }
  | none =>
    { detected_language := "unknown", language_name := "検出できませんでした" }

/-- Result record of `_analyze_sentiment`. -/
structure SentimentResult where
  polarity : ℚ
  subjectivity : ℚ
  sentiment : String
  polarity_percentage : ℚ
deriving DecidableEq

/-- `TextAnalyzer._analyze_sentiment`: polarity/subjectivity come from
the external TextBlob oracle (`none` models a raised exception); the
label thresholds and the percentage mapping are from the source. -/
def analyzeSentiment (oracle : String → Option (ℚ × ℚ)) (t : String) : SentimentResult :=
  match oracle t with
  | some (p, s) =>
    { polarity := pyRound 3 p
      subjectivity := pyRound 3 s
      sentiment :=
        if p > 1 / 10 then "ポジティブ"
        else if p < -(1 / 10) then "ネガティブ"
        else "ニュートラル"
      polarity_percentage := pyRound 1 ((p + 1) * 50) }
  | none =>
    { polarity := 0, subjectivity := 0, sentiment := "分析できませんでした",
      polarity_percentage := 50 }

/-- The aggregate result of `analyze_text`. -/
structure AnalysisReport where
  basic_stats : BasicStats
  language_detection : LangResult
  sentiment_analysis : SentimentResult
  readability_score : ReadabilityScore
  word_frequency : WordFrequency
  sentence_analysis : SentenceAnalysis
  character_analysis : CharacterAnalysis
deriving DecidableEq

/-- The state installed by `TextAnalyzer.__init__`: the detector-factory
seed and the stop-word list. -/
structure AnalyzerState where
  seed : Nat
  stop_words : List String
deriving DecidableEq

/-- `TextAnalyzer.__init__`: pins `DetectorFactory.seed = 0` and loads
the stop words. -/
def analyzerInit (stopWords : List String) : AnalyzerState :=
  { seed := 0, stop_words := stopWords }

/-- `TextAnalyzer.analyze_text`: assembles the seven result blocks. -/
def analyzeText (langOracle : Nat → String → Option String)
    (sentOracle : String → Option (ℚ × ℚ)) (st : AnalyzerState)
    (t : String) : AnalysisReport :=
  { basic_stats := getBasicStats t
    language_detection := detectLanguage langOracle st.seed t
    sentiment_analysis := analyzeSentiment sentOracle t
    readability_score := calculateReadability t
    word_frequency := getWordFrequency st.stop_words t
    sentence_analysis := analyzeSentences t
    character_analysis := analyzeCharacters t }

/-! ### Syllable counter lemmas -/

/-- A list containing a vowel has at least one non-vowel→vowel
transition when the scan starts outside a vowel run. -/
lemma one_le_transAux_of_mem_vowel (l : List Char)
    (h : ∃ c ∈ l, c ∈ vowels) : 1 ≤ transAux l false := by
  induction l with
  | nil => simp at h
  | cons c cs ih =>
    by_cases hv : c ∈ vowels
    · simp [transAux, hv]
    · obtain ⟨d, hd, hdv⟩ := h
      rcases List.mem_cons.mp hd with rfl | hdcs
      · exact absurd hdv hv
      · simpa [transAux, hv] using ih ⟨d, hdcs, hdv⟩

/-- C4: for every word the syllable counter returns the number of
non-vowel→vowel transitions of the lower-cased word, minus one when the
lower-cased word ends in the letter e, floored at a minimum of 1; in
particular it returns 1 on the word "the". -/
theorem c4_syllable_counter :
    (∀ w : String, countSyllables w =
      max 1 ((numTransitions (lowerChars w) : Int) -
        (if (lowerChars w).getLast? = some 'e' then 1 else 0))) ∧
    countSyllables "the" = 1 := by
  refine ⟨fun w => ?_, by decide⟩
  by_cases he : (lowerChars w).getLast? = some 'e'
  · have hmem : 'e' ∈ lowerChars w := List.mem_of_getLast?_eq_some he
    have ht : 1 ≤ numTransitions (lowerChars w) :=
      one_le_transAux_of_mem_vowel _ ⟨'e', hmem, by decide⟩
    simp only [countSyllables, he, if_true, if_pos]
    by_cases h1 : numTransitions (lowerChars w) = 1
    · rw [h1]; norm_num
    · have h2 : 2 ≤ numTransitions (lowerChars w) := by omega
      have h2' : (1 : Int) ≤ (numTransitions (lowerChars w) : Int) - 1 := by
        exact_mod_cast by omega
      rw [if_neg (by omega), max_eq_right h2']
  · simp only [countSyllables, he, if_false]
    by_cases h0 : numTransitions (lowerChars w) = 0
    · rw [h0]; norm_num
    · have h1 : (1 : Int) ≤ (numTransitions (lowerChars w) : Int) := by
        exact_mod_cast by omega
      rw [if_neg (by omega), sub_zero, max_eq_right h1]

/-! ### C1: the basic-stats scenario -/

/-- C1: on the document "Cats run. Dogs run fast!" the basic-stats
operation reports five words (cats, run, dogs, run, fast), two
sentences, and an average of 2.5 words per sentence. -/
theorem c1_basic_stats_scenario :
    wordTokenize "Cats run. Dogs run fast!" = ["cats", "run", "dogs", "run", "fast"] ∧
    (getBasicStats "Cats run. Dogs run fast!").word_count = 5 ∧
    (getBasicStats "Cats run. Dogs run fast!").sentence_count = 2 ∧
    (getBasicStats "Cats run. Dogs run fast!").average_words_per_sentence = 5 / 2 := by
  have hw : wordTokenize "Cats run. Dogs run fast!" =
      ["cats", "run", "dogs", "run", "fast"] := by decide
  have hs : sentTokenize "Cats run. Dogs run fast!" =
      ["Cats run.", " Dogs run fast!"] := by decide
  refine ⟨hw, ?_, ?_, ?_⟩
  · show (wordTokenize "Cats run. Dogs run fast!").length = 5
    rw [hw]; rfl
  · show (sentTokenize "Cats run. Dogs run fast!").length = 2
    rw [hs]; rfl
  · show (if sentTokenize "Cats run. Dogs run fast!" = [] then (0 : ℚ)
      else ((wordTokenize "Cats run. Dogs run fast!").length : ℚ) /
        ((sentTokenize "Cats run. Dogs run fast!").length : ℚ)) = 5 / 2
    rw [hw, hs, if_neg (by simp)]
    norm_num

/-! ### Rounding lemmas -/

lemma roundHalfEven_nonneg {q : ℚ} (h : 0 ≤ q) : 0 ≤ roundHalfEven q := by
  have hf : 0 ≤ ⌊q⌋ := Int.floor_nonneg.mpr h
  unfold roundHalfEven
  split_ifs <;> omega

lemma roundHalfEven_le {q : ℚ} {n : ℤ} (h : q ≤ (n : ℚ)) : roundHalfEven q ≤ n := by
  have hf : ⌊q⌋ ≤ n := by
    have := Int.floor_le_floor h
    rwa [Int.floor_intCast] at this
  unfold roundHalfEven
  split_ifs with h1 h2 h3
  · exact hf
  · have hq : (⌊q⌋ : ℚ) + 1 / 2 < q := by linarith
    have hlt : (⌊q⌋ : ℚ) < (n : ℚ) := by linarith
    have : ⌊q⌋ < n := by exact_mod_cast hlt
    omega
  · exact hf
  · have hq : (⌊q⌋ : ℚ) + 1 / 2 ≤ q := by linarith
    have hlt : (⌊q⌋ : ℚ) < (n : ℚ) := by linarith
    have : ⌊q⌋ < n := by exact_mod_cast hlt
    omega

lemma pyRound_one_bounds {q : ℚ} (h0 : 0 ≤ q) (h1 : q ≤ 100) :
    0 ≤ pyRound 1 q ∧ pyRound 1 q ≤ 100 := by
  have hn : 0 ≤ roundHalfEven (q * 10 ^ 1) := roundHalfEven_nonneg (by positivity)
  have hu : roundHalfEven (q * 10 ^ 1) ≤ 1000 := roundHalfEven_le (by push_cast; linarith)
  constructor
  · exact div_nonneg (by exact_mod_cast hn) (by norm_num)
  · rw [pyRound, div_le_iff₀ (by norm_num)]
    calc (roundHalfEven (q * 10 ^ 1) : ℚ) ≤ 1000 := by exact_mod_cast hu
      _ = 100 * 10 ^ 1 := by norm_num

/-! ### C3: readability score -/

/-- C3 (amended): the reported Flesch score always lies in `[0, 100]`;
it equals the Flesch formula clamped to `[0, 100]` and rounded to one
decimal place when both token sequences are non-empty, and `0`
otherwise. -/
theorem c3_readability_bounds (t : String) :
    0 ≤ (calculateReadability t).flesch_score ∧
    (calculateReadability t).flesch_score ≤ 100 ∧
    (calculateReadability t).flesch_score =
      pyRound 1 (if sentTokenize t ≠ [] ∧ wordTokenize t ≠ [] then
        max 0 (min 100 (206.835
          - 1.015 * (((wordTokenize t).length : ℚ) / ((sentTokenize t).length : ℚ))
          - 84.6 * ((((wordTokenize t).map countSyllables).sum : ℚ) /
              ((wordTokenize t).length : ℚ))))
      else 0) := by
  have hb : ∀ q : ℚ, 0 ≤ max 0 (min 100 q) ∧ max 0 (min 100 q) ≤ 100 := by
    intro q
    exact ⟨le_max_left 0 _, max_le (by norm_num) ((min_le_left 100 q))⟩
  refine ⟨?_, ?_, rfl⟩ <;>
  · show _
    simp only [calculateReadability]
    split_ifs with h
    · have := hb (206.835
        - 1.015 * (((wordTokenize t).length : ℚ) / ((sentTokenize t).length : ℚ))
        - 84.6 * ((((wordTokenize t).map countSyllables).sum : ℚ) /
            ((wordTokenize t).length : ℚ)))
      have hp := pyRound_one_bounds this.1 this.2
      first
        | exact hp.1
        | exact hp.2
    · have hp := pyRound_one_bounds (le_refl (0 : ℚ)) (by norm_num)
      first
        | exact hp.1
        | exact hp.2

/-- C3 counterexample to the claim as stated: on the document
"cat dog rabbit." (three words, one sentence, four syllables) the
reported score is 91, not the clamped formula value 90.99 — the source
additionally rounds the score to one decimal place. -/
theorem c3_claim_counterexample :
    ¬ ((calculateReadability "cat dog rabbit.").flesch_score =
      max 0 (min 100 (206.835 - 1.015 * ((3 : ℚ) / 1) - 84.6 * ((4 : ℚ) / 3)))) := by
  have h1 : wordTokenize "cat dog rabbit." = ["cat", "dog", "rabbit"] := by decide
  have h2 : sentTokenize "cat dog rabbit." = ["cat dog rabbit."] := by decide
  have h3 : (List.map countSyllables ["cat", "dog", "rabbit"]).sum = (4 : Int) := by decide
  have hdef : (calculateReadability "cat dog rabbit.").flesch_score =
      pyRound 1 (if sentTokenize "cat dog rabbit." ≠ [] ∧ wordTokenize "cat dog rabbit." ≠ [] then
        max 0 (min 100 (206.835
          - 1.015 * (((wordTokenize "cat dog rabbit.").length : ℚ) /
              ((sentTokenize "cat dog rabbit.").length : ℚ))
          - 84.6 * ((((wordTokenize "cat dog rabbit.").map countSyllables).sum : ℚ) /
              ((wordTokenize "cat dog rabbit.").length : ℚ))))
      else 0) := rfl
  rw [h1, h2, h3] at hdef
  have hfs : (calculateReadability "cat dog rabbit.").flesch_score = 91 := by
    rw [hdef, if_pos (by simp)]
    have hq : (206.835 - 1.015 * (((["cat", "dog", "rabbit"] : List String).length : ℚ) /
        ((["cat dog rabbit."] : List String).length : ℚ))
        - 84.6 * (((4 : Int) : ℚ) / ((["cat", "dog", "rabbit"] : List String).length : ℚ)))
        = 9099 / 100 := by norm_num
    rw [hq, min_eq_right (by norm_num), max_eq_right (by norm_num)]
    have hfloor : ⌊((9099 : ℚ) / 100 * 10 ^ 1)⌋ = 909 := by
      rw [Int.floor_eq_iff]
      norm_num
    rw [pyRound]
    simp only [roundHalfEven]
    rw [hfloor, if_neg (by norm_num), if_pos (by norm_num)]
    norm_num
  rw [hfs]
  norm_num [min_def, max_def]

/-! ### C5: zero defaults, no division by zero -/

/-- C5: average fields default to 0 when the denominator collection is
empty, and on the empty document every metrics block reports its zero
defaults. -/
theorem c5_zero_defaults (t : String) (stopWords : List String) :
    (sentTokenize t = [] →
      (getBasicStats t).average_words_per_sentence = 0 ∧
      analyzeSentences t = ⟨0, 0, 0, []⟩) ∧
    (wordTokenize t = [] → (getBasicStats t).average_characters_per_word = 0) ∧
    (t = "" →
      getBasicStats t = ⟨0, 0, 0, 0, 0, 0, 0⟩ ∧
      getWordFrequency stopWords t = ⟨0, [], 0⟩ ∧
      analyzeSentences t = ⟨0, 0, 0, []⟩ ∧
      analyzeCharacters t = ⟨0, 0, [], []⟩ ∧
      (calculateReadability t).flesch_score = 0 ∧
      (calculateReadability t).syllable_count = 0) := by
  refine ⟨fun hs => ⟨?_, ?_⟩, fun hw => ?_, fun ht => ?_⟩
  · simp [getBasicStats, hs]
  · simp [analyzeSentences, hs]
  · simp [getBasicStats, hw]
  · subst ht
    refine ⟨by decide, ?_, by decide, by decide, ?_, by decide⟩
    · show (⟨(countMap ((wordTokenize "").filter (freqFilter stopWords))).length,
        (sortCountDesc (countMap ((wordTokenize "").filter (freqFilter stopWords)))).take 10,
        ((wordTokenize "").filter (freqFilter stopWords)).length⟩ : WordFrequency) = ⟨0, [], 0⟩
      have hw : wordTokenize "" = [] := by decide
      rw [hw]
      rfl
    · show pyRound 1 (if sentTokenize "" ≠ [] ∧ wordTokenize "" ≠ [] then _ else 0) = 0
      rw [if_neg (by decide)]
      have hfloor : ⌊((0 : ℚ) * 10 ^ 1)⌋ = 0 := by
        rw [Int.floor_eq_iff]
        norm_num
      rw [pyRound]
      simp only [roundHalfEven]
      rw [hfloor, if_pos (by norm_num)]
      norm_num

/-- C5 witness: the theorem applied to the empty document with an empty
stop-word list. -/
theorem c5_zero_defaults_witness :
    (getBasicStats "").average_words_per_sentence = 0 ∧
    (getBasicStats "").average_characters_per_word = 0 ∧
    analyzeSentences "" = ⟨0, 0, 0, []⟩ ∧
    getWordFrequency [] "" = ⟨0, [], 0⟩ ∧
    analyzeCharacters "" = ⟨0, 0, [], []⟩ ∧
    (calculateReadability "").flesch_score = 0 := by
  have h := c5_zero_defaults "" []
  exact ⟨(h.1 (by decide)).1, h.2.1 (by decide), (h.1 (by decide)).2,
    (h.2.2 rfl).2.1, (h.2.2 rfl).2.2.2.1, (h.2.2 rfl).2.2.2.2.1⟩

/-! ### C6 and C10: character counts -/

lemma filter_ne_space_length (l : List Char) :
    (l.filter (fun c => c ≠ ' ')).length + l.count ' ' = l.length := by
  induction l with
  | nil => rfl
  | cons c tl ih =>
    by_cases hc : c = ' ' <;>
      simp [hc, List.count_cons, List.filter_cons] at ih ⊢ <;> omega

/-- Follows the spec's words (the C6 comparator, not the source):
ASCII and Unicode space characters (Unicode category Zs). -/
def isUnicodeSpace (c : Char) : Bool :=
  c = ' ' || c = ' ' || c = ' ' || (' ' ≤ c && c ≤ ' ') ||
  c = ' ' || c = ' ' || c = '　'

/-- Follows the spec's words (the C6 comparator, not the source): the
character count after removing all ASCII and Unicode space characters. -/
def removeAllSpacesLen (t : String) : Nat :=
  (t.toList.filter (fun c => !isUnicodeSpace c)).length

/-- C6 counterexample to the claim as stated: on the document
"a b" (a no-break space, U+00A0, between two letters) the source
keeps the no-break space — `text.replace(' ', '')` removes only the
ASCII space — so `character_count_no_spaces` is 3, not the 2 required
by removing every Unicode space character. -/
theorem c6_claim_counterexample :
    ¬ ((getBasicStats "a b").character_count_no_spaces =
      removeAllSpacesLen "a b") := by
  decide

/-- C6 (amended): `character_count_no_spaces` equals the number of
characters after removing the ASCII space characters only (equivalently,
`character_count` minus the number of ASCII spaces); `character_count`
equals the Unicode code-point length of the raw text. -/
theorem c6_character_counts (t : String) :
    (getBasicStats t).character_count_no_spaces = t.length - t.toList.count ' ' ∧
    (getBasicStats t).character_count = t.length := by
  refine ⟨?_, rfl⟩
  have h := filter_ne_space_length t.toList
  have hlen : t.length = t.toList.length := rfl
  show (t.toList.filter (fun c => c ≠ ' ')).length = t.length - t.toList.count ' '
  omega

/-- C10: `character_count_no_spaces` never exceeds `character_count`,
with equality exactly when the document contains no ASCII space. -/
theorem c10_space_monotonicity (t : String) :
    (getBasicStats t).character_count_no_spaces ≤ (getBasicStats t).character_count ∧
    ((getBasicStats t).character_count_no_spaces = (getBasicStats t).character_count ↔
      ' ' ∉ t.toList) := by
  have h := filter_ne_space_length t.toList
  have hc : t.toList.count ' ' = 0 ↔ ' ' ∉ t.toList := List.count_eq_zero
  have hcc : (getBasicStats t).character_count = t.toList.length := rfl
  have hcns : (getBasicStats t).character_count_no_spaces =
      (t.toList.filter (fun c => c ≠ ' ')).length := rfl
  refine ⟨by omega, ?_, ?_⟩
  · intro he
    exact hc.mp (by omega)
  · intro hn
    have := hc.mpr hn
    omega

/-! ### C7: determinism of the pipeline -/

/-- C7: two analyzer instances constructed by `__init__` (which pins the
detector seed to 0) produce identical reports on the same document: the
analysis is a deterministic function of the input text. -/
theorem c7_deterministic (langOracle : Nat → String → Option String)
    (sentOracle : String → Option (ℚ × ℚ)) (stopWords : List String)
    (t : String) (st₁ st₂ : AnalyzerState)
    (h₁ : st₁ = analyzerInit stopWords) (h₂ : st₂ = analyzerInit stopWords) :
    analyzeText langOracle sentOracle st₁ t = analyzeText langOracle sentOracle st₂ t := by
  subst h₁
  subst h₂
  rfl

/-- C7 witness: two freshly initialized analyzers agree on a concrete
document under concrete oracles. -/
theorem c7_deterministic_witness :
    analyzeText (fun _ _ => none) (fun _ => none) (analyzerInit []) "abc" =
    analyzeText (fun _ _ => none) (fun _ => none) (analyzerInit []) "abc" :=
  c7_deterministic (fun _ _ => none) (fun _ => none) [] "abc" _ _ rfl rfl

/-! ### C8: sentence-analysis invariants -/

lemma foldl_min_le (xs : List Nat) : ∀ x : Nat,
    xs.foldl min x ≤ x ∧ ∀ y ∈ xs, xs.foldl min x ≤ y := by
  induction xs with
  | nil => intro x; exact ⟨le_refl x, by simp⟩
  | cons z tl ih =>
    intro x
    have h := ih (min x z)
    refine ⟨h.1.trans (min_le_left x z), ?_⟩
    intro y hy
    rcases List.mem_cons.mp hy with rfl | hmem
    · exact h.1.trans (min_le_right x y)
    · exact h.2 y hmem

lemma le_foldl_max (xs : List Nat) : ∀ x : Nat,
    x ≤ xs.foldl max x ∧ ∀ y ∈ xs, y ≤ xs.foldl max x := by
  induction xs with
  | nil => intro x; exact ⟨le_refl x, by simp⟩
  | cons z tl ih =>
    intro x
    have h := ih (max x z)
    refine ⟨(le_max_left x z).trans h.1, ?_⟩
    intro y hy
    rcases List.mem_cons.mp hy with rfl | hmem
    · exact (le_max_right x y).trans h.1
    · exact h.2 y hmem

lemma pyMin_le {l : List Nat} {y : Nat} (hy : y ∈ l) : pyMin l ≤ y := by
  cases l with
  | nil => cases hy
  | cons x xs =>
    rcases List.mem_cons.mp hy with rfl | hmem
    · exact (foldl_min_le xs y).1
    · exact (foldl_min_le xs x).2 y hmem

lemma le_pyMax {l : List Nat} {y : Nat} (hy : y ∈ l) : y ≤ pyMax l := by
  cases l with
  | nil => cases hy
  | cons x xs =>
    rcases List.mem_cons.mp hy with rfl | hmem
    · exact (le_foldl_max xs y).1
    · exact (le_foldl_max xs x).2 y hmem

lemma sum_bounds (l : List Nat) (m M : Nat) (hm : ∀ y ∈ l, m ≤ y)
    (hM : ∀ y ∈ l, y ≤ M) : l.length * m ≤ l.sum ∧ l.sum ≤ l.length * M := by
  induction l with
  | nil => simp
  | cons x tl ih =>
    have h := ih (fun y hy => hm y (List.mem_cons_of_mem x hy))
      (fun y hy => hM y (List.mem_cons_of_mem x hy))
    have hx1 := hm x (List.mem_cons_self x tl)
    have hx2 := hM x (List.mem_cons_self x tl)
    simp only [List.length_cons, List.sum_cons]
    constructor
    · calc (tl.length + 1) * m = tl.length * m + m := by ring
        _ ≤ tl.sum + x := by omega
        _ = x + tl.sum := by ring
    · calc x + tl.sum ≤ M + tl.length * M := by omega
        _ = (tl.length + 1) * M := by ring

/-- C8: when a document has at least one sentence, the shortest sentence
length is at most the average sentence length, the average is at most
the longest, and `sentence_lengths` has one entry per sentence. -/
theorem c8_sentence_stats (t : String) (h : sentTokenize t ≠ []) :
    ((analyzeSentences t).shortest_sentence : ℚ) ≤
      (analyzeSentences t).average_sentence_length ∧
    (analyzeSentences t).average_sentence_length ≤
      ((analyzeSentences t).longest_sentence : ℚ) ∧
    (analyzeSentences t).sentence_lengths.length = (sentTokenize t).length := by
  have hl : (sentTokenize t).map (fun s => (wordTokenize s).length) ≠ [] := by
    simpa using h
  set lengths := (sentTokenize t).map (fun s => (wordTokenize s).length) with hlen
  have hres : analyzeSentences t =
      { average_sentence_length := (lengths.sum : ℚ) / (lengths.length : ℚ)
        shortest_sentence := pyMin lengths
        longest_sentence := pyMax lengths
        sentence_lengths := lengths } := by
    rw [analyzeSentences]
    rw [if_neg hl]
  have hpos : 0 < lengths.length := List.length_pos.mpr hl
  have hb := sum_bounds lengths (pyMin lengths) (pyMax lengths)
    (fun y hy => pyMin_le hy) (fun y hy => le_pyMax hy)
  have hposq : (0 : ℚ) < (lengths.length : ℚ) := by exact_mod_cast hpos
  rw [hres]
  refine ⟨?_, ?_, by rw [hlen, List.length_map]⟩
  · show (pyMin lengths : ℚ) ≤ (lengths.sum : ℚ) / (lengths.length : ℚ)
    rw [le_div_iff₀ hposq]
    calc (pyMin lengths : ℚ) * (lengths.length : ℚ)
        = ((pyMin lengths * lengths.length : Nat) : ℚ) := by push_cast; ring
      _ ≤ ((lengths.sum : Nat) : ℚ) := by
          exact_mod_cast by
            calc pyMin lengths * lengths.length = lengths.length * pyMin lengths := by ring
              _ ≤ lengths.sum := hb.1
  · show (lengths.sum : ℚ) / (lengths.length : ℚ) ≤ (pyMax lengths : ℚ)
    rw [div_le_iff₀ hposq]
    calc ((lengths.sum : Nat) : ℚ) ≤ ((lengths.length * pyMax lengths : Nat) : ℚ) := by
          exact_mod_cast hb.2
      _ = (pyMax lengths : ℚ) * (lengths.length : ℚ) := by push_cast; ring

/-- C8 witness: the theorem applied to the one-sentence document
"Hi.". -/
theorem c8_sentence_stats_witness :
    sentTokenize "Hi." ≠ [] ∧
    (((analyzeSentences "Hi.").shortest_sentence : ℚ) ≤
      (analyzeSentences "Hi.").average_sentence_length ∧
    (analyzeSentences "Hi.").average_sentence_length ≤
      ((analyzeSentences "Hi.").longest_sentence : ℚ) ∧
    (analyzeSentences "Hi.").sentence_lengths.length = (sentTokenize "Hi.").length) :=
  ⟨by decide, c8_sentence_stats "Hi." (by decide)⟩

/-! ### Stable-sort lemmas -/

lemma mem_insertDesc {α : Type} (x y : α × Nat) (l : List (α × Nat)) :
    y ∈ insertDesc x l ↔ y = x ∨ y ∈ l := by
  induction l with
  | nil => simp [insertDesc]
  | cons z tl ih =>
    rw [insertDesc]
    split
    · simp [List.mem_cons]
    · simp only [List.mem_cons, ih]
      tauto

lemma mem_sortCountDesc {α : Type} (l : List (α × Nat)) (y : α × Nat) :
    y ∈ sortCountDesc l ↔ y ∈ l := by
  induction l with
  | nil => simp [sortCountDesc]
  | cons x tl ih =>
    rw [sortCountDesc, mem_insertDesc]
    simp [ih]

lemma pairwise_insertDesc {α : Type} {P : α × Nat → α × Nat → Prop}
    (x : α × Nat) (l : List (α × Nat)) (h1 : l.Pairwise P)
    (h2 : ∀ y ∈ l, P x y) (h3 : ∀ y ∈ l, x.2 < y.2 → P y x) :
    (insertDesc x l).Pairwise P := by
  induction l with
  | nil => simp [insertDesc]
  | cons z tl ih =>
    rw [insertDesc]
    rcases List.pairwise_cons.mp h1 with ⟨hz, htl⟩
    split
    case isTrue hc =>
      exact List.pairwise_cons.mpr ⟨h2, h1⟩
    case isFalse hc =>
      refine List.pairwise_cons.mpr ⟨?_, ?_⟩
      · intro y hy
        rcases (mem_insertDesc x y tl).mp hy with rfl | hyt
        · exact h3 z (List.mem_cons_self z tl) (by omega)
        · exact hz y hyt
      · exact ih htl (fun y hy => h2 y (List.mem_cons_of_mem z hy))
          (fun y hy => h3 y (List.mem_cons_of_mem z hy))

lemma pairwise_sortCountDesc {α : Type} {P : α × Nat → α × Nat → Prop}
    (l : List (α × Nat)) (h1 : l.Pairwise P)
    (h3 : ∀ x y : α × Nat, x.2 < y.2 → P y x) :
    (sortCountDesc l).Pairwise P := by
  induction l with
  | nil => simp [sortCountDesc]
  | cons x tl ih =>
    rw [sortCountDesc]
    rcases List.pairwise_cons.mp h1 with ⟨hx, htl⟩
    refine pairwise_insertDesc x _ (ih htl) ?_ ?_
    · intro y hy
      exact hx y ((mem_sortCountDesc tl y).mp hy)
    · intro y _ hlt
      exact h3 x y hlt

lemma sorted_insertDesc {α : Type} (x : α × Nat) (l : List (α × Nat))
    (h : l.Pairwise (fun a b => b.2 ≤ a.2)) :
    (insertDesc x l).Pairwise (fun a b => b.2 ≤ a.2) := by
  induction l with
  | nil => simp [insertDesc]
  | cons z tl ih =>
    rw [insertDesc]
    rcases List.pairwise_cons.mp h with ⟨hz, htl⟩
    split
    case isTrue hc =>
      refine List.pairwise_cons.mpr ⟨?_, h⟩
      intro y hy
      rcases List.mem_cons.mp hy with rfl | hyt
      · exact hc
      · exact (hz y hyt).trans hc
    case isFalse hc =>
      refine List.pairwise_cons.mpr ⟨?_, ih htl⟩
      intro y hy
      rcases (mem_insertDesc x y tl).mp hy with rfl | hyt
      · omega
      · exact hz y hyt

lemma sorted_sortCountDesc {α : Type} (l : List (α × Nat)) :
    (sortCountDesc l).Pairwise (fun a b => b.2 ≤ a.2) := by
  induction l with
  | nil => simp [sortCountDesc]
  | cons x tl ih =>
    rw [sortCountDesc]
    exact sorted_insertDesc x _ ih

/-! ### First-occurrence index lemmas -/

lemma firstIdx_append_left {α : Type} [DecidableEq α] (a : α) (p q : List α)
    (h : a ∈ p) : firstIdx a (p ++ q) = firstIdx a p := by
  induction p with
  | nil => cases h
  | cons b tl ih =>
    rw [List.cons_append, firstIdx, firstIdx]
    split
    · rfl
    · have hmem : a ∈ tl := by
        rcases List.mem_cons.mp h with rfl | hmem
        · simp_all
        · exact hmem
      rw [ih hmem]

lemma firstIdx_lt_length {α : Type} [DecidableEq α] {a : α} {p : List α}
    (h : a ∈ p) : firstIdx a p < p.length := by
  induction p with
  | nil => cases h
  | cons b tl ih =>
    rw [firstIdx, List.length_cons]
    split
    · omega
    · have hmem : a ∈ tl := by
        rcases List.mem_cons.mp h with rfl | hmem
        · simp_all
        · exact hmem
      have := ih hmem
      omega

lemma firstIdx_append_of_not_mem {α : Type} [DecidableEq α] {a : α} {p : List α}
    (q : List α) (h : a ∉ p) : firstIdx a (p ++ q) = p.length + firstIdx a q := by
  induction p with
  | nil => simp
  | cons b tl ih =>
    have hab : a ≠ b := fun he => h (he ▸ List.mem_cons_self b tl)
    have htl : a ∉ tl := fun hm => h (List.mem_cons_of_mem b hm)
    rw [List.cons_append, firstIdx, if_neg hab, ih htl, List.length_cons]
    omega

lemma firstIdx_filter_lt {α : Type} [DecidableEq α] (q : α → Bool) :
    ∀ (l : List α) (a b : α), a ∈ l.filter q → b ∈ l.filter q →
      firstIdx a (l.filter q) < firstIdx b (l.filter q) →
      firstIdx a l < firstIdx b l := by
  intro l
  induction l with
  | nil => intro a b ha; simp at ha
  | cons c tl ih =>
    intro a b ha hb hlt
    by_cases hqc : q c
    · rw [List.filter_cons_of_pos hqc] at ha hb hlt
      by_cases hac : a = c
      · subst hac
        have hba : b ≠ a := by
          intro he
          subst he
          rw [firstIdx, if_pos rfl] at hlt
          omega
        rw [firstIdx, if_pos rfl, firstIdx, if_neg hba]
        omega
      · have hbc : b ≠ c := by
          intro he
          subst he
          have h0 : firstIdx b (b :: tl.filter q) = 0 := by simp [firstIdx]
          omega
        have ha' : a ∈ tl.filter q := by
          rcases List.mem_cons.mp ha with he | hm
          · exact absurd he hac
          · exact hm
        have hb' : b ∈ tl.filter q := by
          rcases List.mem_cons.mp hb with he | hm
          · exact absurd he hbc
          · exact hm
        rw [firstIdx, if_neg hac, firstIdx, if_neg hbc] at hlt
        have := ih a b ha' hb' (by omega)
        rw [firstIdx, if_neg hac, firstIdx, if_neg hbc]
        omega
    · rw [List.filter_cons_of_neg hqc] at ha hb hlt
      have hqa : q a = true := List.of_mem_filter ha
      have hqb : q b = true := List.of_mem_filter hb
      have hac : a ≠ c := fun he => hqc (he ▸ hqa)
      have hbc : b ≠ c := fun he => hqc (he ▸ hqb)
      have := ih a b ha hb hlt
      rw [firstIdx, if_neg hac, firstIdx, if_neg hbc]
      omega

/-! ### Insertion-order invariant of the dict-building fold -/

/-- Invariant tying a partially built multiplicity map `m` to the
processed prefix `p` of the token stream: every key has been seen,
every seen token is a key, and keys are ordered by first occurrence. -/
structure MapInv {α : Type} [DecidableEq α] (p : List α) (m : List (α × Nat)) : Prop where
  keys_mem : ∀ x ∈ m, x.1 ∈ p
  mem_keys : ∀ b ∈ p, ∃ x ∈ m, x.1 = b
  ordered : m.Pairwise (fun x y => firstIdx x.1 p < firstIdx y.1 p)

lemma mapInv_upsert {α : Type} [DecidableEq α] {p : List α} {m : List (α × Nat)}
    (h : MapInv p m) (a : α) : MapInv (p ++ [a]) (upsert m a) := by
  obtain ⟨h1, h2, h3⟩ := h
  have hkey : ∀ x : α × Nat, ((if x.1 = a then (x.1, x.2 + 1) else x) : α × Nat).1 = x.1 := by
    intro x
    split <;> rfl
  rw [upsert]
  split
  case isTrue hk =>
    refine ⟨?_, ?_, ?_⟩
    · intro x hx
      obtain ⟨y, hy, rfl⟩ := List.mem_map.mp hx
      rw [hkey y]
      exact List.mem_append_left _ (h1 y hy)
    · intro b hb
      rcases List.mem_append.mp hb with hbp | hba
      · obtain ⟨x, hx, hxa⟩ := h2 b hbp
        exact ⟨_, List.mem_map_of_mem _ hx, by rw [hkey x]; exact hxa⟩
      · obtain rfl : b = a := by simpa using hba
        obtain ⟨x, hx, hxa⟩ := hk
        exact ⟨_, List.mem_map_of_mem _ hx, by rw [hkey x]; exact hxa⟩
    · rw [List.pairwise_map]
      refine h3.imp_of_mem ?_
      intro x y hx hy hR
      rw [hkey x, hkey y, firstIdx_append_left _ _ _ (h1 x hx),
        firstIdx_append_left _ _ _ (h1 y hy)]
      exact hR
  case isFalse hk =>
    have hap : a ∉ p := fun hap => hk (h2 a hap)
    refine ⟨?_, ?_, ?_⟩
    · intro x hx
      rcases List.mem_append.mp hx with hxm | hxa
      · exact List.mem_append_left _ (h1 x hxm)
      · obtain rfl : x = (a, 1) := by simpa using hxa
        exact List.mem_append_right _ (by simp)
    · intro b hb
      rcases List.mem_append.mp hb with hbp | hba
      · obtain ⟨x, hx, hxa⟩ := h2 b hbp
        exact ⟨x, List.mem_append_left _ hx, hxa⟩
      · obtain rfl : b = a := by simpa using hba
        exact ⟨(b, 1), List.mem_append_right _ (by simp), rfl⟩
    · rw [List.pairwise_append]
      refine ⟨?_, List.pairwise_singleton _ _, ?_⟩
      · refine h3.imp_of_mem ?_
        intro x y hx hy hR
        rw [firstIdx_append_left _ _ _ (h1 x hx), firstIdx_append_left _ _ _ (h1 y hy)]
        exact hR
      · intro x hx y hy
        obtain rfl : y = (a, 1) := by simpa using hy
        rw [firstIdx_append_left _ _ _ (h1 x hx), firstIdx_append_of_not_mem _ hap]
        have hxl := firstIdx_lt_length (h1 x hx)
        have h0 : firstIdx a [a] = 0 := by simp [firstIdx]
        omega

lemma mapInv_foldl {α : Type} [DecidableEq α] :
    ∀ (l p : List α) (m : List (α × Nat)), MapInv p m →
      MapInv (p ++ l) (l.foldl upsert m) := by
  intro l
  induction l with
  | nil => intro p m h; simpa using h
  | cons a tl ih =>
    intro p m h
    have h2 := ih (p ++ [a]) (upsert m a) (mapInv_upsert h a)
    simpa [List.append_assoc] using h2

lemma countMap_mapInv {α : Type} [DecidableEq α] (l : List α) : MapInv l (countMap l) := by
  have h := mapInv_foldl l [] [] ⟨by simp, by simp, List.Pairwise.nil⟩
  simpa [countMap] using h

/-! ### C2: stable descending word-frequency ranking -/

/-- C2: the ranked list `most_common_words` is sorted by descending
count, and whenever two entries have equal counts the one whose word
first occurs earlier in the token stream comes first. -/
theorem c2_word_frequency_stable (stopWords : List String) (t : String) :
    (getWordFrequency stopWords t).most_common_words.Pairwise
      (fun x y => y.2 ≤ x.2 ∧
        (x.2 = y.2 → firstIdx x.1 (wordTokenize t) < firstIdx y.1 (wordTokenize t))) := by
  have hinv := countMap_mapInv ((wordTokenize t).filter (freqFilter stopWords))
  have hstab : (sortCountDesc
      (countMap ((wordTokenize t).filter (freqFilter stopWords)))).Pairwise
      (fun x y => x.2 = y.2 →
        firstIdx x.1 ((wordTokenize t).filter (freqFilter stopWords)) <
        firstIdx y.1 ((wordTokenize t).filter (freqFilter stopWords))) := by
    refine pairwise_sortCountDesc _ (hinv.ordered.imp ?_) ?_
    · intro x y h _
      exact h
    · intro x y hlt heq
      omega
  have hsorted := sorted_sortCountDesc
    (countMap ((wordTokenize t).filter (freqFilter stopWords)))
  have hcomb := hsorted.and hstab
  have htake := List.Pairwise.sublist (List.take_sublist 10 _) hcomb
  show ((sortCountDesc
    (countMap ((wordTokenize t).filter (freqFilter stopWords)))).take 10).Pairwise _
  refine htake.imp_of_mem ?_
  intro x y hx hy hR
  refine ⟨hR.1, fun heq => ?_⟩
  have hx1 : x.1 ∈ (wordTokenize t).filter (freqFilter stopWords) :=
    hinv.keys_mem x ((mem_sortCountDesc _ x).mp (List.mem_of_mem_take hx))
  have hy1 : y.1 ∈ (wordTokenize t).filter (freqFilter stopWords) :=
    hinv.keys_mem y ((mem_sortCountDesc _ y).mp (List.mem_of_mem_take hy))
  exact firstIdx_filter_lt (freqFilter stopWords) (wordTokenize t) x.1 y.1 hx1 hy1 (hR.2 heq)

/-! ### C9: character-analysis consistency -/

/-- C9: `total_letters` is the sum of the distribution counts,
`unique_letters` is the number of distribution entries, and the
`most_common_letters` ranking holds at most 10 pairs, each an entry of
`letter_distribution`. -/
theorem c9_character_consistency (t : String) :
    (analyzeCharacters t).total_letters =
      ((analyzeCharacters t).letter_distribution.map Prod.snd).sum ∧
    (analyzeCharacters t).unique_letters = (analyzeCharacters t).letter_distribution.length ∧
    (analyzeCharacters t).most_common_letters.length ≤ 10 ∧
    ∀ p ∈ (analyzeCharacters t).most_common_letters,
      p ∈ (analyzeCharacters t).letter_distribution := by
  refine ⟨rfl, rfl, ?_, ?_⟩
  · show ((sortCountDesc (charCountMap t)).take 10).length ≤ 10
    rw [List.length_take]
    exact min_le_left _ _
  · intro p hp
    show p ∈ charCountMap t
    exact (mem_sortCountDesc _ p).mp (List.mem_of_mem_take hp)
